import Mathlib

/-!
Verification of the gosym resolver (src/main.go, the go1.6 build that the
race-based system described in spec.md consists of).  The development
shallowly embeds the resolver's pure decision logic: the semantic analyzer
(go/types `Check`, `loader.Load`), the file system, the sha1 hash and the
legacy resolver process are modelled as oracle parameters, while every
branch of the repository's own code is translated directly.
-/

namespace Gosym

/-- A valid token position as produced by `fset.Position`: file name,
1-based line and column.  `token.NoPos` is modelled by `Option Pos = none`
at every use site. -/
structure Pos where
  filename : String
  line : Nat
  col : Nat
deriving DecidableEq

/-- A `types.Object` as the resolver consumes it: the declaring package
path (`obj.Pkg()`, which is nil — here `none` — for universe-scope objects
such as built-ins) and the declaration position (`obj.Pos()`, `none`
modelling `token.NoPos`). -/
structure Object where
  pkg : Option String
  pos : Option Pos
deriving DecidableEq

/-- Identifier nodes (`*ast.Ident`) are compared by pointer identity in the
source; we model node identity by a natural number tag. -/
abbrev Ident := Nat

/-- Embeds `token.Position.String` (the `printPos` helper renders positions
through it): `filename:line:column`, with the filename and the column part
omitted when empty respectively zero, and `-` for the empty result. -/
def posString (p : Pos) : String :=
  let s := p.filename
  let s :=
    if p.line > 0 then
      ((if s ≠ "" then s ++ ":" else s) ++ toString p.line) ++
        (if p.col ≠ 0 then ":" ++ toString p.col else "")
    else s
  if s = "" then "-" else s

/-- First-match association-list lookup.  Go maps have unique keys, and the
source's `for id, obj := range m { if target == id { return obj } }` loops
as well as `m[k]` indexing are exactly a lookup of the (unique) matching
key; on lists with duplicate keys this takes the first match. -/
def lookupTab {κ α : Type} [DecidableEq κ] (tab : List (κ × α)) (k : κ) : Option α :=
  match tab with
  | [] => none
  | (k1, v) :: rest => if k1 = k then some v else lookupTab rest k

/-- Embeds `findIdentObj` (src/main.go lines 683-696, go1.6 build): scan the
use table of the created package first, then the definition table, returning
the object stored under the target identifier node.  Table values are
`Option Object` because `types.Info.Defs` may map an identifier to a nil
object. -/
def findIdentObj (pkgUses pkgDefs : List (Ident × Option Object)) (target : Ident) :
    Option Object :=
  match lookupTab pkgUses target with
  | some obj => obj
  | none =>
    match lookupTab pkgDefs target with
    | some obj => obj
    | none => none

/-- Modelled from the spec: the lookup order the specification words
describe for the Whole-Program strategy — check the definitions table
first, then the uses table.  Kept only to be compared with `findIdentObj`,
which is translated from the source. -/
def findIdentObjSpecOrder (pkgUses pkgDefs : List (Ident × Option Object)) (target : Ident) :
    Option Object :=
  match lookupTab pkgDefs target with
  | some obj => obj
  | none =>
    match lookupTab pkgUses target with
    | some obj => obj
    | none => none

/-- Result of one `Import(path)` call: the returned package value (nil
possible) and the returned error, as a pair like the Go `(pkg, err)`. -/
structure ImportResult where
  pkg : Option Nat
  err : Option String
deriving DecidableEq

/-- Embeds `hybridImporter.Import` (src/main.go lines 569-583, go1.6
build).  `metaImport` is the oracle for `importer.Default()` (the metadata
importer) and `srcImport` the oracle for `importSrcPkg` (the source
importer); `pkgInUse` is the designated in-use package of
`newHybridImporter`.  For a path different from the designated one the
metadata importer is tried and its package returned on nil error; in every
other case the call ends in the source importer, whose result is returned
verbatim. -/
def hybridImport (metaImport srcImport : String → ImportResult)
    (pkgInUse path : String) : ImportResult :=
  if pkgInUse ≠ path then
    let r := metaImport path
    match r.err with
    | none => { pkg := r.pkg, err := none }
    | some _ => srcImport path
  else srcImport path

/-- Embeds `findInMyPkg` (src/main.go lines 609-632, go1.6 build).  `uses`
is the use table produced by the first, metadata-only `Check` over the
target package's files.  The Go statement `otherPkg = obj.Pkg().Path()`
dereferences the possibly nil `*types.Package`; a nil receiver is a runtime
panic, modelled by `Except.error ()`. -/
def findInMyPkg (uses : Ident → Option Object) (myPkg : String) (target : Ident) :
    Except Unit (Option Object × String) :=
  match uses target with
  | none => .ok (none, "")
  | some obj =>
    match obj.pkg with
    | none => .error ()
    | some otherPkg =>
      if otherPkg = myPkg then .ok (some obj, myPkg)
      else .ok (none, otherPkg)

/-- Embeds `twoPass` (src/main.go lines 634-657, go1.6 build).
`firstUses` is the first-pass use-table oracle of `findInMyPkg`;
`secondUses p` is the use table produced by the second `Check` over the
same files when the configuration's importer is `newHybridImporter p`.  A
panic inside `findInMyPkg` propagates. -/
def twoPass (firstUses : Ident → Option Object)
    (secondUses : String → Ident → Option Object)
    (myPkg : String) (target : Ident) : Except Unit (Option Object) :=
  match findInMyPkg firstUses myPkg target with
  | .error e => .error e
  | .ok (some obj, _) => .ok (some obj)
  | .ok (none, otherPkg) =>
    if otherPkg = "" then .ok none
    else .ok (secondUses otherPkg target)

/-- A persisted cache entry (`objectEntry`, src/main.go lines 699-705):
origin-file fingerprint, resolved position rendered as a string, resolved
file's fingerprint, creation time in nanoseconds, and the in-memory
known-bad flag. -/
structure ObjectEntry where
  FromSHA1 : String
  ToPos : String
  ToSHA1 : String
  Created : Int
  bad : Bool
deriving DecidableEq

/-- The in-memory cache table `recentObjects.entries`, a map from the
stringified query position to its entry, as an association list. -/
abbrev RecentEntries := List (String × ObjectEntry)

/-- Oracles for the ambient process state the cache code consults:
`readFile fn` is the content of file `fn` on disk (`none` on a read
error), `shaOf` is the sha1-hex function, and `fileSHA1` is the global
fingerprint of the query file's bytes computed in `parseMyPkg`. -/
structure CacheEnv where
  readFile : String → Option String
  shaOf : String → String
  fileSHA1 : String

/-- Embeds `fileSHA` (src/main.go lines 753-759): the empty string when
the file cannot be read, else the sha1 hex digest of its bytes. -/
def fileSHA (env : CacheEnv) (fn : String) : String :=
  match env.readFile fn with
  | none => ""
  | some b => env.shaOf b

/-- Index of the last occurrence of `c`, as `strings.LastIndexByte`
computes it (with `none` for the Go result -1); positions rendered by
`posString` are ASCII so byte and character indices coincide. -/
def lastIndexChar (l : List Char) (c : Char) : Option Nat :=
  match l with
  | [] => none
  | x :: xs =>
    match lastIndexChar xs c with
    | some i => some (i + 1)
    | none => if x = c then some 0 else none

/-- Embeds the file-name extraction of `validEntry` (src/main.go lines
740-748): cut the entry's `ToPos` at its second-to-last colon; `none` when
fewer than two colons exist. -/
def toPosFile (s : String) : Option String :=
  let l := s.toList
  match lastIndexChar l ':' with
  | none => none
  | some i =>
    match lastIndexChar (l.take i) ':' with
    | none => none
    | some j => some (String.mk (l.take j))

/-- Embeds `validEntry` (src/main.go lines 735-751): the stored origin
fingerprint must equal the query file's fingerprint, the stored position
must parse into a file name, and that file's freshly computed fingerprint
must equal the stored one. -/
def validEntry (env : CacheEnv) (ent : ObjectEntry) : Bool :=
  if ent.FromSHA1 ≠ env.fileSHA1 then false
  else
    match toPosFile ent.ToPos with
    | none => false
    | some fn => fileSHA env fn == ent.ToSHA1

/-- Sets the `bad` flag of the entry stored under `k`, as the pointer
mutation `ent.bad = true` does on the map value. -/
def markBad (entries : RecentEntries) (k : String) : RecentEntries :=
  match entries with
  | [] => []
  | (k1, v) :: rest =>
    (if k1 = k then (k1, { v with bad := true }) else (k1, v)) :: markBad rest k

/-- Outcome of a cache lookup: a miss, or a hit printing the stored
position and exiting the process with status 0. -/
inductive LookupOut
| miss
| hit (pos : String)
deriving DecidableEq

/-- Embeds `findRecent` (src/main.go lines 713-733).  `st` is the loaded
`recents` table (`none` when no cache was loaded) and `k` the stringified
query position.  A present but invalid entry is marked bad in the returned
in-memory state and the lookup reports a miss; a valid entry is a hit. -/
def findRecent (env : CacheEnv) (st : Option RecentEntries) (k : String) :
    LookupOut × Option RecentEntries :=
  match st with
  | none => (.miss, none)
  | some entries =>
    match lookupTab entries k with
    | none => (.miss, some entries)
    | some ent =>
      if validEntry env ent then (.hit ent.ToPos, some entries)
      else (.miss, some (markBad entries k))

/-- The 24-hour retention window of the sweep, in nanoseconds. -/
def retentionNanos : Int := 86400000000000

/-- Map-overwrite `entries[k] = v`: replace the value stored under an
existing key, else add the new pair. -/
def insertTab (entries : RecentEntries) (k : String) (v : ObjectEntry) :
    RecentEntries :=
  match entries with
  | [] => [(k, v)]
  | (k1, v1) :: rest =>
    if k1 = k then (k1, v) :: rest else (k1, v1) :: insertTab rest k v

/-- The eviction sweep of `saveRecent` (src/main.go lines 811-816): delete
every entry that is marked bad or created before the expiry instant. -/
def sweep (entries : RecentEntries) (expire : Int) : RecentEntries :=
  entries.filter fun p => !(p.2.bad || decide (p.2.Created < expire))

/-- The table `saveRecent` holds after its record path ran (src/main.go
lines 790-816): the fresh entry — origin fingerprint, rendered resolved
position, resolved file's fingerprint, current timestamp, not bad —
overwrites the query key (a nil in-memory table starts empty), and the
eviction sweep runs over the result. -/
def recordTable (env : CacheEnv) (identPos objPos : Pos) (now : Int)
    (st : Option RecentEntries) : RecentEntries :=
  sweep
    (insertTab (st.getD []) (posString identPos)
      { FromSHA1 := env.fileSHA1, ToPos := posString objPos,
        ToSHA1 := fileSHA env objPos.filename, Created := now, bad := false })
    (now - retentionNanos)

/-- Embeds `saveRecent` (src/main.go lines 777-826).  Arguments mirror the
globals and parameters: `cacheFile` is the cache-file flag, `identPos` the
query identifier's position, `obj` the resolved object, `now` the current
time in nanoseconds, `st` the in-memory table.  Returns the new in-memory
table and, when the record path completes, the table content persisted to
the cache file (`none` when nothing is written). -/
def saveRecent (env : CacheEnv) (cacheFile : String) (identPos : Pos)
    (obj : Option Object) (now : Int) (st : Option RecentEntries) :
    Option RecentEntries × Option RecentEntries :=
  if cacheFile = "" then (st, none)
  else
    match obj with
    | none => (st, none)
    | some o =>
      match o.pos with
      | none => (st, none)
      | some objPos =>
        if identPos.filename = objPos.filename then (st, none)
        else
          if fileSHA env objPos.filename = "" then (st, none)
          else
            (some (recordTable env identPos objPos now st),
             some (recordTable env identPos objPos now st))

/-- Standard output, standard error and exit status of the process run. -/
structure ProcOut where
  stdout : List String
  stderr : List String
  exitCode : Nat
deriving DecidableEq

/-- Embeds `fail` (src/main.go lines 586-589): the fixed godef-compatible
failure message on standard error and exit status 2. -/
def failOut : ProcOut :=
  { stdout := [], stderr := ["godef: no identifier found"], exitCode := 2 }

/-- The process context `printTargetObj` consults: the `-godef` flag value,
the original command-line arguments `os.Args[1:]`, the query file's bytes
`fileBody`, and an oracle running the legacy resolver on a path, arguments
and standard-input bytes, returning its standard output or an error. -/
structure CliEnv where
  godef : String
  args : List String
  fileBody : String
  legacy : String → List String → String → Except Unit String

/-- The fallback tail of `printTargetObj` (src/main.go lines 596-606):
with a configured legacy resolver, run it on the original arguments and
input bytes and relay its standard output on success; otherwise, or when
it fails, emit the fixed failure. -/
def printTargetObjFallback (env : CliEnv) : ProcOut :=
  if env.godef ≠ "" then
    match env.legacy env.godef env.args env.fileBody with
    | .ok b => { stdout := [b], stderr := [], exitCode := 0 }
    | .error _ => failOut
  else failOut

/-- Embeds `printTargetObj` (src/main.go lines 591-607, go1.6 build): a
non-nil object with a valid position prints its rendered position and
exits 0; anything else goes to the legacy fallback. -/
def printTargetObj (env : CliEnv) (obj : Option Object) : ProcOut :=
  match obj with
  | some o =>
    match o.pos with
    | some p => { stdout := [posString p], stderr := [], exitCode := 0 }
    | none => printTargetObjFallback env
  | none => printTargetObjFallback env

/-- A node of the enclosing-node chain returned by
`astutil.PathEnclosingInterval`: an identifier or any other node kind. -/
inductive Node
| ident (i : Ident)
| other
deriving DecidableEq

/-- Embeds `findIdent` (src/main.go lines 514-521): the innermost
identifier of the chain, scanning outward. -/
def findIdent (chain : List Node) : Option Ident :=
  match chain with
  | [] => none
  | .ident i :: _ => some i
  | .other :: rest => findIdent rest

/-- Inputs of one program run (`main`, src/main.go lines 865-897):
the 1-based `-o` offset; whether `tf.Pos` yields a valid position at that
offset; the enclosing-node chain at that position; the target identifier's
own position (the cache key source); the loaded cache table; the object
chosen by the strategy race in `parallelPass` (abstracting the
nondeterministic arrival order); and the cache and CLI contexts. -/
structure MainEnv where
  offset : Int
  posValid : Bool
  chain : List Node
  identPos : Pos
  cache : CacheEnv
  recents : Option RecentEntries
  raceObj : Option Object
  cli : CliEnv

/-- Embeds the observable output of `main` (go1.6 build): fail on a
non-positive offset, an offset with no position, or a chain without an
identifier; otherwise the concurrent cache lookup of `parallelPass` (run
only when a cache was loaded) may hit, printing the cached position and
exiting 0 before the race result is consumed; on a miss the race winner
goes through `printTargetObj`.  `saveRecent` only touches the cache file,
not the process output. -/
def mainRun (env : MainEnv) : ProcOut :=
  if env.offset - 1 < 0 then failOut
  else if env.posValid = false then failOut
  else
    match findIdent env.chain with
    | none => failOut
    | some _ =>
      match env.recents with
      | some entries =>
        match findRecent env.cache (some entries) (posString env.identPos) with
        | (.hit p, _) => { stdout := [p], stderr := [], exitCode := 0 }
        | (.miss, _) => printTargetObj env.cli env.raceObj
      | none => printTargetObj env.cli env.raceObj

/-- The cache-lookup task of `parallelPass` did not short-circuit the run:
either no cache table was loaded, or the lookup missed. -/
def cacheMiss (env : MainEnv) : Prop :=
  match env.recents with
  | none => True
  | some entries =>
    (findRecent env.cache (some entries) (posString env.identPos)).1 = .miss

/-- C7: for every import request to the Hybrid importer, a path equal to
the designated in-use package is resolved by the source importer; any
other path is tried on the metadata importer first, whose result is
returned on success, and only on a metadata-importer error is the source
importer used for that path as a fallback. -/
theorem hybridImport_dispatch :
    ∀ (metaImport srcImport : String → ImportResult) (pkgInUse path : String),
      (path = pkgInUse →
        hybridImport metaImport srcImport pkgInUse path = srcImport path)
      ∧ (path ≠ pkgInUse → (metaImport path).err = none →
        hybridImport metaImport srcImport pkgInUse path = metaImport path)
      ∧ (∀ e, path ≠ pkgInUse → (metaImport path).err = some e →
        hybridImport metaImport srcImport pkgInUse path = srcImport path) := by
  intro m s q p
  refine ⟨fun h => ?_, fun hne h => ?_, fun e hne h => ?_⟩
  · subst h
    simp [hybridImport]
  · have hq : q ≠ p := fun hh => hne hh.symm
    cases hmp : m p with
    | mk pk er =>
      simp only [hybridImport, if_pos hq]
      rw [hmp] at h ⊢
      cases h
      rfl
  · have hq : q ≠ p := fun hh => hne hh.symm
    simp only [hybridImport, if_pos hq]
    rw [h]

/-- Witness for `hybridImport_dispatch` at concrete importers: the
designated path goes to the source importer, a foreign path with a
metadata error falls back to the source importer. -/
theorem hybridImport_dispatch_witness :
    hybridImport (fun _ => { pkg := none, err := some "no export data" })
        (fun _ => { pkg := some 7, err := none }) "lib" "lib" =
      { pkg := some 7, err := none }
    ∧ hybridImport (fun _ => { pkg := none, err := some "no export data" })
        (fun _ => { pkg := some 7, err := none }) "lib" "fmt" =
      { pkg := some 7, err := none } :=
  ⟨(hybridImport_dispatch _ _ "lib" "lib").1 rfl,
   (hybridImport_dispatch _ _ "lib" "fmt").2.2 "no export data" (by decide) rfl⟩

/-- C3: when the first pass binds the target to an object declared in the
target package itself, the Two-Pass strategy returns that first-pass
binding without a second pass (the result does not depend on the
second-pass oracle); when the declaring package is a foreign package `P`,
it returns the binding of the second pass run with the Hybrid importer
designating `P` as in use. -/
theorem twoPass_passes :
    ∀ (firstUses : Ident → Option Object)
      (secondUses : String → Ident → Option Object)
      (myPkg : String) (target : Ident) (o : Object),
      (firstUses target = some o → o.pkg = some myPkg →
        twoPass firstUses secondUses myPkg target = .ok (some o))
      ∧ (∀ p, firstUses target = some o → o.pkg = some p → p ≠ myPkg → p ≠ "" →
        twoPass firstUses secondUses myPkg target = .ok (secondUses p target)) := by
  intro fu su myPkg t o
  constructor
  · intro h1 h2
    simp [twoPass, findInMyPkg, h1, h2]
  · intro p h1 h2 hne hp
    simp [twoPass, findInMyPkg, h1, h2, hne, hp]

/-- Witness for `twoPass_passes`: a same-package binding is returned from
the first pass directly; a foreign-package binding is fetched from the
second pass. -/
theorem twoPass_passes_witness :
    twoPass (fun _ => some { pkg := some "main", pos := some { filename := "a.go", line := 3, col := 6 } })
        (fun _ _ => none) "main" 0 =
      .ok (some { pkg := some "main", pos := some { filename := "a.go", line := 3, col := 6 } })
    ∧ twoPass (fun _ => some { pkg := some "lib", pos := none })
        (fun _ _ => some { pkg := some "lib", pos := some { filename := "b.go", line := 10, col := 6 } })
        "main" 0 =
      .ok (some { pkg := some "lib", pos := some { filename := "b.go", line := 10, col := 6 } }) :=
  ⟨(twoPass_passes _ (fun _ _ => none) "main" 0 _).1 rfl rfl,
   (twoPass_passes _ _ "main" 0 _).2 "lib" rfl rfl (by decide) (by decide)⟩

/-- C10 counterexample: a use table binding the target to a universe-scope
object (one whose declaring package is nil) drives `findInMyPkg` into the
nil dereference of `obj.Pkg().Path()` — the run panics instead of
returning normally. -/
theorem findInMyPkg_universe_panic :
    findInMyPkg
      (fun _ => some { pkg := none, pos := some { filename := "builtin.go", line := 1, col := 1 } })
      "main" 0 = .error () := rfl

/-- C10 amended: `findInMyPkg` returns normally on every binding whose
object carries a declaring package and on an unbound target — yielding the
object with the target package exactly when the declaring package is the
target package, otherwise no object with the declaring path, and an empty
path when unbound — while a binding to a package-less object (a
universe-scope built-in) faults on the nil package dereference. -/
theorem findInMyPkg_cases :
    ∀ (uses : Ident → Option Object) (myPkg : String) (target : Ident),
      (uses target = none → findInMyPkg uses myPkg target = .ok (none, ""))
      ∧ (∀ o, uses target = some o → o.pkg = some myPkg →
          findInMyPkg uses myPkg target = .ok (some o, myPkg))
      ∧ (∀ o p, uses target = some o → o.pkg = some p → p ≠ myPkg →
          findInMyPkg uses myPkg target = .ok (none, p))
      ∧ (∀ o, uses target = some o → o.pkg = none →
          findInMyPkg uses myPkg target = .error ()) := by
  intro u myPkg t
  refine ⟨fun h => ?_, fun o h1 h2 => ?_, fun o p h1 h2 hne => ?_, fun o h1 h2 => ?_⟩
  · simp [findInMyPkg, h]
  · simp [findInMyPkg, h1, h2]
  · simp [findInMyPkg, h1, h2, hne]
  · simp [findInMyPkg, h1, h2]

/-- Witness for `findInMyPkg_cases`: an unbound target yields no object
and the empty path; a foreign binding yields no object and the foreign
path. -/
theorem findInMyPkg_cases_witness :
    findInMyPkg (fun _ => none) "main" 0 = .ok (none, "")
    ∧ findInMyPkg (fun _ => some { pkg := some "lib", pos := none }) "main" 0 =
        .ok (none, "lib") :=
  ⟨(findInMyPkg_cases (fun _ => none) "main" 0).1 rfl,
   (findInMyPkg_cases _ "main" 0).2.2.1 { pkg := some "lib", pos := none } "lib" rfl rfl
     (by decide)⟩

/-- C1 counterexample: on tables that both contain the target node with
different bindings, the resolver's `findIdentObj` (uses table scanned
first) disagrees with the lookup order the claim states (definitions table
first), so the claimed check order is not the implemented one. -/
theorem findIdentObj_order_cex :
    findIdentObj
        [(0, some { pkg := some "p", pos := some { filename := "a.go", line := 1, col := 1 } })]
        [(0, some { pkg := some "p", pos := some { filename := "a.go", line := 2, col := 1 } })]
        0 =
      some { pkg := some "p", pos := some { filename := "a.go", line := 1, col := 1 } }
    ∧ findIdentObjSpecOrder
        [(0, some { pkg := some "p", pos := some { filename := "a.go", line := 1, col := 1 } })]
        [(0, some { pkg := some "p", pos := some { filename := "a.go", line := 2, col := 1 } })]
        0 =
      some { pkg := some "p", pos := some { filename := "a.go", line := 2, col := 1 } }
    ∧ findIdentObj
        [(0, some { pkg := some "p", pos := some { filename := "a.go", line := 1, col := 1 } })]
        [(0, some { pkg := some "p", pos := some { filename := "a.go", line := 2, col := 1 } })]
        0 ≠
      findIdentObjSpecOrder
        [(0, some { pkg := some "p", pos := some { filename := "a.go", line := 1, col := 1 } })]
        [(0, some { pkg := some "p", pos := some { filename := "a.go", line := 2, col := 1 } })]
        0 := by
  decide

/-- C1 amended: the race system's `findIdentObj` checks the uses table
first and the definitions table second, returning the binding from
whichever table first contains the exact target node; whenever the target
occurs in at most one of the two tables — as is the case for the disjoint
definition/use tables the analyzer produces — this coincides with the
definitions-first order the specification words describe. -/
theorem findIdentObj_uses_first :
    ∀ (pkgUses pkgDefs : List (Ident × Option Object)) (target : Ident),
      (∀ v, lookupTab pkgUses target = some v →
        findIdentObj pkgUses pkgDefs target = v)
      ∧ (∀ v, lookupTab pkgUses target = none → lookupTab pkgDefs target = some v →
        findIdentObj pkgUses pkgDefs target = v)
      ∧ (lookupTab pkgUses target = none → lookupTab pkgDefs target = none →
        findIdentObj pkgUses pkgDefs target = none)
      ∧ ((lookupTab pkgUses target = none ∨ lookupTab pkgDefs target = none) →
        findIdentObj pkgUses pkgDefs target =
          findIdentObjSpecOrder pkgUses pkgDefs target) := by
  intro us ds t
  refine ⟨fun v h => ?_, fun v h1 h2 => ?_, fun h1 h2 => ?_, fun h => ?_⟩
  · simp [findIdentObj, h]
  · simp [findIdentObj, h1, h2]
  · simp [findIdentObj, h1, h2]
  · rcases h with h | h
    · simp [findIdentObj, findIdentObjSpecOrder, h]
    · cases hu : lookupTab us t with
      | none => simp [findIdentObj, findIdentObjSpecOrder, h, hu]
      | some v => simp [findIdentObj, findIdentObjSpecOrder, h, hu]

/-- Witness for `findIdentObj_uses_first`: a target present only in the
definitions table is found through the second check, matching a query that
lands exactly on a declaring occurrence. -/
theorem findIdentObj_uses_first_witness :
    findIdentObj []
        [(5, some { pkg := some "main", pos := some { filename := "a.go", line := 3, col := 6 } })]
        5 =
      some { pkg := some "main", pos := some { filename := "a.go", line := 3, col := 6 } } :=
  (findIdentObj_uses_first [] _ 5).2.1 _ rfl rfl

/-- Position soundness of the Two-Pass strategy: when every binding the
first- and second-pass use tables can produce for the target carries the
target's true declaration position, any object the strategy returns
carries that position. -/
theorem twoPass_result_sound (firstUses : Ident → Option Object)
    (secondUses : String → Ident → Option Object) (myPkg : String) (target : Ident)
    (gt : Pos)
    (h1 : ∀ o, firstUses target = some o → o.pos = some gt)
    (h2 : ∀ q o, secondUses q target = some o → o.pos = some gt) :
    ∀ o, twoPass firstUses secondUses myPkg target = .ok (some o) → o.pos = some gt := by
  intro o h
  cases hu : firstUses target with
  | none => simp [twoPass, findInMyPkg, hu] at h
  | some ob =>
    cases hp : ob.pkg with
    | none => simp [twoPass, findInMyPkg, hu, hp] at h
    | some p =>
      by_cases hpm : p = myPkg
      · simp [twoPass, findInMyPkg, hu, hp, hpm] at h
        subst h
        exact h1 _ hu
      · by_cases hpe : p = ""
        · subst hpe
          simp [twoPass, findInMyPkg, hu, hp, hpm] at h
        · simp [twoPass, findInMyPkg, hu, hp, hpm, hpe] at h
          exact h2 p o h

/-- Position soundness of the Whole-Program lookup: when every object the
created package's tables store under the target carries the true
declaration position, so does the object `findIdentObj` returns. -/
theorem findIdentObj_result_sound (pkgUses pkgDefs : List (Ident × Option Object))
    (target : Ident) (gt : Pos)
    (h3 : ∀ o, lookupTab pkgUses target = some (some o) → o.pos = some gt)
    (h4 : ∀ o, lookupTab pkgDefs target = some (some o) → o.pos = some gt) :
    ∀ o, findIdentObj pkgUses pkgDefs target = some o → o.pos = some gt := by
  intro o h
  unfold findIdentObj at h
  cases hu : lookupTab pkgUses target with
  | none =>
    rw [hu] at h
    cases hd : lookupTab pkgDefs target with
    | none => rw [hd] at h; simp at h
    | some v =>
      rw [hd] at h
      dsimp only at h
      subst h
      exact h4 o hd
  | some v =>
    rw [hu] at h
    dsimp only at h
    subst h
    exact h3 o hu

/-- C2: under the SemanticAnalyzer contract — every binding either
analysis records for the target identifier carries the target's true
declaration position — the Two-Pass strategy and the Whole-Program
strategy agree on the declaration Location whenever both return a
non-empty binding, and the printed result of `printTargetObj` is therefore
the same whichever strategy wins the race. -/
theorem race_location_agreement :
    ∀ (firstUses : Ident → Option Object)
      (secondUses : String → Ident → Option Object)
      (loaderUses loaderDefs : List (Ident × Option Object))
      (myPkg : String) (target : Ident) (gt : Pos),
      (∀ o, firstUses target = some o → o.pos = some gt) →
      (∀ q o, secondUses q target = some o → o.pos = some gt) →
      (∀ o, lookupTab loaderUses target = some (some o) → o.pos = some gt) →
      (∀ o, lookupTab loaderDefs target = some (some o) → o.pos = some gt) →
      ∀ o1 o2,
        twoPass firstUses secondUses myPkg target = .ok (some o1) →
        findIdentObj loaderUses loaderDefs target = some o2 →
        o1.pos = o2.pos ∧
          ∀ cli, printTargetObj cli (some o1) = printTargetObj cli (some o2) := by
  intro fu su lu ld myPkg t gt h1 h2 h3 h4 o1 o2 ht hf
  have e1 := twoPass_result_sound fu su myPkg t gt h1 h2 o1 ht
  have e2 := findIdentObj_result_sound lu ld t gt h3 h4 o2 hf
  refine ⟨e1.trans e2.symm, fun cli => ?_⟩
  simp [printTargetObj, e1, e2]

/-- Witness for `race_location_agreement`: a query on a foreign-package
symbol resolved by both strategies — through the second pass on one side
and the loader use table on the other — yields the same position. -/
theorem race_location_agreement_witness :
    (⟨some "lib", some ⟨"b.go", 10, 6⟩⟩ : Object).pos =
      (⟨some "other", some ⟨"b.go", 10, 6⟩⟩ : Object).pos :=
  (race_location_agreement
    (fun _ => some ⟨some "lib", some ⟨"b.go", 10, 6⟩⟩)
    (fun _ _ => some ⟨some "lib", some ⟨"b.go", 10, 6⟩⟩)
    [(0, some ⟨some "other", some ⟨"b.go", 10, 6⟩⟩)] []
    "main" 0 ⟨"b.go", 10, 6⟩
    (by intro o h; cases h; rfl)
    (by intro q o h; cases h; rfl)
    (by intro o h; simp [lookupTab] at h; rw [← h])
    (by intro o h; simp [lookupTab] at h)
    ⟨some "lib", some ⟨"b.go", 10, 6⟩⟩ ⟨some "other", some ⟨"b.go", 10, 6⟩⟩
    rfl rfl).1

/-- A validation that succeeds certifies exactly the three claimed checks:
matching origin fingerprint, a parsable resolved position, and a matching
freshly computed resolved-file fingerprint. -/
theorem validEntry_eq_true (env : CacheEnv) (ent : ObjectEntry)
    (h : validEntry env ent = true) :
    ent.FromSHA1 = env.fileSHA1 ∧
      ∃ fn, toPosFile ent.ToPos = some fn ∧ fileSHA env fn = ent.ToSHA1 := by
  unfold validEntry at h
  by_cases h1 : ent.FromSHA1 = env.fileSHA1
  · refine ⟨h1, ?_⟩
    rw [if_neg (by simp [h1])] at h
    cases htp : toPosFile ent.ToPos with
    | none => rw [htp] at h; simp at h
    | some fn =>
      rw [htp] at h
      exact ⟨fn, rfl, eq_of_beq h⟩
  · rw [if_pos h1] at h
    simp at h

/-- Marking an entry bad changes only that entry's flag: the marked entry
is still stored under its key. -/
theorem lookupTab_markBad (k : String) (ent : ObjectEntry) :
    ∀ entries : RecentEntries, lookupTab entries k = some ent →
      lookupTab (markBad entries k) k = some { ent with bad := true } := by
  intro entries
  induction entries with
  | nil => intro h; simp [lookupTab] at h
  | cons p rest ih =>
    intro h
    obtain ⟨k1, v⟩ := p
    by_cases hk : k1 = k
    · subst hk
      simp [lookupTab] at h
      subst h
      simp only [markBad, if_pos rfl]
      simp [lookupTab]
    · simp [lookupTab, hk] at h
      simp only [markBad, if_neg hk]
      simp [lookupTab, hk]
      exact ih h

/-- Marking an entry bad deletes nothing: the key list of the table is
unchanged. -/
theorem markBad_keys (entries : RecentEntries) (k : String) :
    (markBad entries k).map Prod.fst = entries.map Prod.fst := by
  induction entries with
  | nil => rfl
  | cons p rest ih =>
    obtain ⟨k1, v⟩ := p
    by_cases hk : k1 = k <;> simp [markBad, hk] <;> exact ih

/-- C4: the cache lookup reports a hit only when an entry exists under the
query key, its stored origin fingerprint equals the query file's
fingerprint and its stored resolved-file fingerprint equals the freshly
computed fingerprint of the resolved file on disk; when a present entry
fails validation, the lookup misses and the returned in-memory table holds
the same keys with that entry merely marked bad, not removed. -/
theorem findRecent_contract :
    ∀ (env : CacheEnv) (st : Option RecentEntries) (k : String),
      (∀ p, (findRecent env st k).1 = .hit p →
        ∃ entries ent, st = some entries ∧ lookupTab entries k = some ent ∧
          p = ent.ToPos ∧ ent.FromSHA1 = env.fileSHA1 ∧
          ∃ fn, toPosFile ent.ToPos = some fn ∧ fileSHA env fn = ent.ToSHA1)
      ∧ (∀ entries ent, st = some entries → lookupTab entries k = some ent →
          validEntry env ent = false →
          findRecent env st k = (.miss, some (markBad entries k)) ∧
          lookupTab (markBad entries k) k = some { ent with bad := true } ∧
          (markBad entries k).map Prod.fst = entries.map Prod.fst) := by
  intro env st k
  constructor
  · intro p hp
    cases st with
    | none => simp [findRecent] at hp
    | some entries =>
      cases hl : lookupTab entries k with
      | none => simp [findRecent, hl] at hp
      | some ent =>
        by_cases hv : validEntry env ent = true
        · simp [findRecent, hl, hv] at hp
          obtain ⟨hfp, hfn⟩ := validEntry_eq_true env ent hv
          exact ⟨entries, ent, rfl, hl, hp.symm, hfp, hfn⟩
        · simp [findRecent, hl, hv] at hp
  · intro entries ent hst hl hv
    subst hst
    refine ⟨by simp [findRecent, hl, hv], lookupTab_markBad k ent entries hl,
      markBad_keys entries k⟩

/-- Witness for `findRecent_contract`: an entry whose origin fingerprint
does not match the query file misses, and the returned table still holds
it under its key with the bad flag set. -/
theorem findRecent_contract_witness :
    findRecent ⟨fun _ => none, fun _ => "", "X"⟩
        (some [("k", ⟨"Y", "b.go:1:2", "h", 0, false⟩)]) "k" =
      (.miss, some [("k", ⟨"Y", "b.go:1:2", "h", 0, true⟩)]) :=
  ((findRecent_contract ⟨fun _ => none, fun _ => "", "X"⟩
      (some [("k", ⟨"Y", "b.go:1:2", "h", 0, false⟩)]) "k").2
    [("k", ⟨"Y", "b.go:1:2", "h", 0, false⟩)] ⟨"Y", "b.go:1:2", "h", 0, false⟩
    rfl (by decide) (by decide)).1

/-- Overwriting one key leaves every pair stored under a different key in
the table. -/
theorem insertTab_mem_of_ne (k : String) (v : ObjectEntry)
    (k2 : String) (e : ObjectEntry) (hne : k2 ≠ k) :
    ∀ entries : RecentEntries, (k2, e) ∈ entries → (k2, e) ∈ insertTab entries k v := by
  intro entries
  induction entries with
  | nil => intro h; simp at h
  | cons p rest ih =>
    intro h
    obtain ⟨k1, v1⟩ := p
    rcases List.mem_cons.mp h with h | h
    · rw [Prod.mk.injEq] at h
      obtain ⟨h1, h2⟩ := h
      subst h1
      subst h2
      simp only [insertTab, if_neg hne]
      exact List.mem_cons_self _ _
    · by_cases hk : k1 = k
      · simp only [insertTab, if_pos hk]
        exact List.mem_cons_of_mem _ h
      · simp only [insertTab, if_neg hk]
        exact List.mem_cons_of_mem _ (ih h)

/-- The freshly overwritten pair survives a filter that accepts it, and is
what a lookup of its key finds afterwards. -/
theorem lookupTab_filter_insert (pred : String × ObjectEntry → Bool)
    (k : String) (v : ObjectEntry) (hpred : pred (k, v) = true) :
    ∀ entries : RecentEntries,
      lookupTab ((insertTab entries k v).filter pred) k = some v := by
  intro entries
  induction entries with
  | nil =>
    simp only [insertTab]
    simp [List.filter_cons, hpred, lookupTab]
  | cons p rest ih =>
    obtain ⟨k1, v1⟩ := p
    by_cases hk : k1 = k
    · subst hk
      simp only [insertTab, if_pos rfl]
      simp [List.filter_cons, hpred, lookupTab]
    · simp only [insertTab, if_neg hk]
      cases hq : pred (k1, v1) with
      | true =>
        simp only [List.filter_cons, hq, if_pos rfl]
        simp only [lookupTab, if_neg hk]
        exact ih
      | false =>
        simp only [List.filter_cons, hq]
        simpa using ih

/-- Every entry surviving the eviction sweep is not bad and not older than
the expiry instant. -/
theorem sweep_mem_props (expire : Int) (p : String × ObjectEntry)
    (entries : RecentEntries) (h : p ∈ sweep entries expire) :
    p.2.bad = false ∧ ¬(p.2.Created < expire) := by
  have h2 := (List.mem_filter.mp h).2
  simpa using h2

/-- An entry that is not bad and not expired survives the eviction
sweep. -/
theorem sweep_mem_intro (expire : Int) (p : String × ObjectEntry)
    (entries : RecentEntries) (hmem : p ∈ entries) (hbad : p.2.bad = false)
    (hcr : ¬(p.2.Created < expire)) : p ∈ sweep entries expire := by
  refine List.mem_filter.mpr ⟨hmem, ?_⟩
  simp [hbad, hcr]

/-- C5: after every completed Record, the persisted table holds no entry
marked bad and no entry created before the 24-hour retention instant, and
every pre-existing entry under another key that is still valid — not bad
and not expired — survives the sweep into the persisted table. -/
theorem saveRecent_sweep_contract :
    ∀ (env : CacheEnv) (cacheFile : String) (identPos : Pos) (obj : Option Object)
      (now : Int) (st : Option RecentEntries) (tbl : RecentEntries),
      (saveRecent env cacheFile identPos obj now st).2 = some tbl →
      (∀ p ∈ tbl, p.2.bad = false ∧ ¬(p.2.Created < now - retentionNanos))
      ∧ (∀ k2 e, (k2, e) ∈ st.getD [] → k2 ≠ posString identPos →
          e.bad = false → ¬(e.Created < now - retentionNanos) → (k2, e) ∈ tbl) := by
  intro env cf ip obj now st tbl h
  unfold saveRecent at h
  by_cases hcf : cf = ""
  · rw [if_pos hcf] at h; simp at h
  · rw [if_neg hcf] at h
    cases obj with
    | none => simp at h
    | some o =>
      dsimp only at h
      cases hop : o.pos with
      | none => rw [hop] at h; simp at h
      | some objPos =>
        rw [hop] at h
        dsimp only at h
        by_cases hsf : ip.filename = objPos.filename
        · rw [if_pos hsf] at h; simp at h
        · rw [if_neg hsf] at h
          by_cases hsha : fileSHA env objPos.filename = ""
          · rw [if_pos hsha] at h; simp at h
          · rw [if_neg hsha] at h
            simp only [Option.some_inj] at h
            subst h
            constructor
            · intro p hp
              exact sweep_mem_props _ p _ hp
            · intro k2 e hmem hne hbad hcr
              exact sweep_mem_intro _ (k2, e) _
                (insertTab_mem_of_ne _ _ _ _ hne _ hmem) hbad hcr

/-- Witness for `saveRecent_sweep_contract`: a still-valid foreign entry
survives a completed record into the persisted table. -/
theorem saveRecent_sweep_contract_witness :
    ("old", (⟨"F", "b.go:9:9", "S", 5, false⟩ : ObjectEntry)) ∈
      ([("old", ⟨"F", "b.go:9:9", "S", 5, false⟩),
        ("a.go:1:5", ⟨"F", "b.go:2:3", "S", 86400000000000, false⟩)] : RecentEntries) :=
  (saveRecent_sweep_contract ⟨fun _ => some "body", fun _ => "S", "F"⟩ "cache"
      ⟨"a.go", 1, 5⟩ (some ⟨some "lib", some ⟨"b.go", 2, 3⟩⟩) 86400000000000
      (some [("old", ⟨"F", "b.go:9:9", "S", 5, false⟩)])
      [("old", ⟨"F", "b.go:9:9", "S", 5, false⟩),
       ("a.go:1:5", ⟨"F", "b.go:2:3", "S", 86400000000000, false⟩)]
      (by decide)).2
    "old" ⟨"F", "b.go:9:9", "S", 5, false⟩ (by decide) (by decide) rfl (by decide)

/-- C6: Record caches only cross-file resolutions — a resolution into the
query file itself, or one whose resolved file cannot be read, leaves the
in-memory table and the cache file untouched; otherwise the entry under
the query key is inserted or overwritten with the origin fingerprint, the
rendered resolved position, the resolved file's current fingerprint and
the current timestamp, and the updated table is persisted. -/
theorem saveRecent_record_contract :
    ∀ (env : CacheEnv) (cacheFile : String) (identPos : Pos) (o : Object)
      (objPos : Pos) (now : Int) (st : Option RecentEntries),
      (o.pos = some objPos → identPos.filename = objPos.filename →
        saveRecent env cacheFile identPos (some o) now st = (st, none))
      ∧ (o.pos = some objPos → fileSHA env objPos.filename = "" →
        saveRecent env cacheFile identPos (some o) now st = (st, none))
      ∧ (cacheFile ≠ "" → o.pos = some objPos →
          identPos.filename ≠ objPos.filename → fileSHA env objPos.filename ≠ "" →
          ∃ tbl, saveRecent env cacheFile identPos (some o) now st = (some tbl, some tbl) ∧
            lookupTab tbl (posString identPos) =
              some { FromSHA1 := env.fileSHA1, ToPos := posString objPos,
                     ToSHA1 := fileSHA env objPos.filename, Created := now,
                     bad := false }) := by
  intro env cf ip o objPos now st
  refine ⟨fun hop hsf => ?_, fun hop hsha => ?_, fun hcf hop hsf hsha => ?_⟩
  · unfold saveRecent
    by_cases hcf : cf = ""
    · rw [if_pos hcf]
    · rw [if_neg hcf]
      dsimp only
      rw [hop]
      dsimp only
      rw [if_pos hsf]
  · unfold saveRecent
    by_cases hcf : cf = ""
    · rw [if_pos hcf]
    · rw [if_neg hcf]
      dsimp only
      rw [hop]
      dsimp only
      by_cases hsf : ip.filename = objPos.filename
      · rw [if_pos hsf]
      · rw [if_neg hsf, if_pos hsha]
  · refine ⟨recordTable env ip objPos now st, ?_, ?_⟩
    · unfold saveRecent
      rw [if_neg hcf]
      dsimp only
      rw [hop]
      dsimp only
      rw [if_neg hsf, if_neg hsha]
    · unfold recordTable sweep
      refine lookupTab_filter_insert _ _ _ ?_ _
      have hlt : ¬ (now < now - retentionNanos) := by
        unfold retentionNanos
        omega
      simp [hlt]

/-- Witness for `saveRecent_record_contract`: a cross-file resolution into
a readable file is recorded under the query key with the query file's
fingerprint, the rendered location and the resolved file's fingerprint. -/
theorem saveRecent_record_contract_witness :
    ∃ tbl, saveRecent ⟨fun _ => some "body", fun _ => "S", "F"⟩ "cache" ⟨"a.go", 1, 5⟩
        (some ⟨some "lib", some ⟨"b.go", 2, 3⟩⟩) 0 none = (some tbl, some tbl) ∧
      lookupTab tbl (posString ⟨"a.go", 1, 5⟩) =
        some ⟨"F", posString ⟨"b.go", 2, 3⟩,
          fileSHA ⟨fun _ => some "body", fun _ => "S", "F"⟩ "b.go", 0, false⟩ :=
  (saveRecent_record_contract ⟨fun _ => some "body", fun _ => "S", "F"⟩ "cache"
      ⟨"a.go", 1, 5⟩ ⟨some "lib", some ⟨"b.go", 2, 3⟩⟩ ⟨"b.go", 2, 3⟩ 0 none).2.2
    (by decide) rfl (by decide) (by decide)

/-- C8: the process contract.  Every failure — non-positive offset, offset
with no token position, offset outside all identifier tokens, and a run on
which no strategy and no fallback resolves a location — prints the single
fixed failure message to standard error, prints nothing to standard
output, and exits with status 2; a run whose race resolves an object with
a valid position prints exactly one `path:line:column` line to standard
output and exits with status 0. -/
theorem exit_behavior_contract :
    ∀ env : MainEnv,
      (env.offset ≤ 0 → mainRun env = failOut)
      ∧ (env.posValid = false → mainRun env = failOut)
      ∧ (findIdent env.chain = none → mainRun env = failOut)
      ∧ (∀ o p i, 1 ≤ env.offset → env.posValid = true →
          findIdent env.chain = some i → cacheMiss env →
          env.raceObj = some o → o.pos = some p →
          p.filename ≠ "" → 0 < p.line → p.col ≠ 0 →
          mainRun env =
            { stdout := [p.filename ++ ":" ++ toString p.line ++ ":" ++ toString p.col],
              stderr := [], exitCode := 0 })
      ∧ (cacheMiss env →
          (env.raceObj = none ∨ ∃ o, env.raceObj = some o ∧ o.pos = none) →
          (env.cli.godef = "" ∨
            ∃ e, env.cli.legacy env.cli.godef env.cli.args env.cli.fileBody = .error e) →
          mainRun env = failOut)
      ∧ failOut = { stdout := [], stderr := ["godef: no identifier found"], exitCode := 2 } := by
  intro env
  refine ⟨fun hoff => ?_, fun hpv => ?_, fun hid => ?_,
    fun o p i hoff hpv hid hmiss hobj hpos hfn hline hcol => ?_,
    fun hmiss hun hfb => ?_, rfl⟩
  · have hneg : env.offset - 1 < 0 := by omega
    simp [mainRun, hneg]
  · simp [mainRun, hpv]
  · unfold mainRun
    by_cases hneg : env.offset - 1 < 0
    · rw [if_pos hneg]
    · rw [if_neg hneg]
      by_cases hpv : env.posValid = false
      · rw [if_pos hpv]
      · rw [if_neg hpv, hid]
  · have hneg : ¬ (env.offset - 1 < 0) := by omega
    have hps : posString p =
        p.filename ++ ":" ++ toString p.line ++ ":" ++ toString p.col := by
      simp only [posString]
      rw [if_pos hline, if_pos hfn, if_pos hcol]
      have hne0 : (p.filename ++ ":") ++ toString p.line ++ (":" ++ toString p.col) ≠ "" := by
        intro hh
        have hlen := congrArg String.length hh
        simp [String.length_append,
          show (":" : String).length = 1 from rfl] at hlen
      rw [if_neg hne0]
      simp [String.append_assoc]
    unfold mainRun
    rw [if_neg hneg, if_neg (by simp [hpv]), hid]
    cases hr : env.recents with
    | none =>
      dsimp only
      simp [printTargetObj, hobj, hpos, hps]
    | some entries =>
      dsimp only
      have hm : (findRecent env.cache (some entries) (posString env.identPos)).1 = .miss := by
        unfold cacheMiss at hmiss
        rw [hr] at hmiss
        exact hmiss
      cases hfr : findRecent env.cache (some entries) (posString env.identPos) with
      | mk out st2 =>
        rw [hfr] at hm
        dsimp at hm
        subst hm
        simp [printTargetObj, hobj, hpos, hps]
  · unfold mainRun
    by_cases hneg : env.offset - 1 < 0
    · rw [if_pos hneg]
    · rw [if_neg hneg]
      by_cases hpv : env.posValid = false
      · rw [if_pos hpv]
      · rw [if_neg hpv]
        cases hid : findIdent env.chain with
        | none => rfl
        | some i =>
          have hpt : printTargetObj env.cli env.raceObj = failOut := by
            have hfb2 : printTargetObjFallback env.cli = failOut := by
              unfold printTargetObjFallback
              by_cases hg : env.cli.godef = ""
              · rw [if_neg (by simp [hg])]
              · rw [if_pos hg]
                rcases hfb with hfb | ⟨e, hfb⟩
                · exact absurd hfb hg
                · rw [hfb]
            rcases hun with hun | ⟨o, hun, hpn⟩
            · rw [hun]
              exact hfb2
            · rw [hun]
              unfold printTargetObj
              dsimp only
              rw [hpn]
              exact hfb2
          cases hr : env.recents with
          | none => exact hpt
          | some entries =>
            dsimp only
            have hm : (findRecent env.cache (some entries) (posString env.identPos)).1 =
                .miss := by
              unfold cacheMiss at hmiss
              rw [hr] at hmiss
              exact hmiss
            cases hfr : findRecent env.cache (some entries) (posString env.identPos) with
            | mk out st2 =>
              rw [hfr] at hm
              dsimp at hm
              subst hm
              exact hpt

/-- Witness for `exit_behavior_contract`: a run whose race resolves the
identifier to `a.go` line 3 column 6 prints exactly that location and
exits 0. -/
theorem exit_behavior_contract_witness :
    mainRun
      { offset := 5, posValid := true, chain := [.ident 0], identPos := ⟨"a.go", 1, 5⟩,
        cache := ⟨fun _ => none, fun _ => "", ""⟩, recents := none,
        raceObj := some ⟨some "main", some ⟨"a.go", 3, 6⟩⟩,
        cli := ⟨"", [], "", fun _ _ _ => .error ()⟩ } =
      { stdout := ["a.go:3:6"], stderr := [], exitCode := 0 } := by
  have h := (exit_behavior_contract
    { offset := 5, posValid := true, chain := [.ident 0], identPos := ⟨"a.go", 1, 5⟩,
      cache := ⟨fun _ => none, fun _ => "", ""⟩, recents := none,
      raceObj := some ⟨some "main", some ⟨"a.go", 3, 6⟩⟩,
      cli := ⟨"", [], "", fun _ _ _ => .error ()⟩ }).2.2.2.1
    ⟨some "main", some ⟨"a.go", 3, 6⟩⟩ ⟨"a.go", 3, 6⟩ 0
    (by decide) rfl rfl trivial rfl rfl (by decide) (by decide) (by decide)
  exact h

/-- C9: when the race resolves nothing and a legacy resolver is
configured, `printTargetObj` invokes the legacy resolver on the original
command-line arguments with the original input bytes on its standard
input; on success the legacy standard output is relayed verbatim with exit
status 0, and only when that invocation also fails is the fixed failure
emitted. -/
theorem legacy_fallback_contract :
    ∀ (env : CliEnv) (obj : Option Object),
      (obj = none ∨ ∃ o, obj = some o ∧ o.pos = none) →
      env.godef ≠ "" →
      (∀ b, env.legacy env.godef env.args env.fileBody = .ok b →
          printTargetObj env obj = { stdout := [b], stderr := [], exitCode := 0 })
      ∧ (∀ e, env.legacy env.godef env.args env.fileBody = .error e →
          printTargetObj env obj = failOut) := by
  intro env obj hun hg
  have hfb : printTargetObj env obj = printTargetObjFallback env := by
    rcases hun with h | ⟨o, ho, hp⟩
    · rw [h]
      rfl
    · rw [ho]
      unfold printTargetObj
      dsimp only
      rw [hp]
  constructor
  · intro b hb
    rw [hfb]
    unfold printTargetObjFallback
    rw [if_pos hg, hb]
  · intro e he
    rw [hfb]
    unfold printTargetObjFallback
    rw [if_pos hg, he]

/-- Witness for `legacy_fallback_contract`: with no resolved object and a
configured legacy resolver that prints a location, that output is relayed
verbatim with exit status 0. -/
theorem legacy_fallback_contract_witness :
    printTargetObj
      { godef := "godef.orig", args := ["-f", "a.go", "-o", "100"],
        fileBody := "package main", legacy := fun _ _ _ => .ok "b.go:10:6" } none =
      { stdout := ["b.go:10:6"], stderr := [], exitCode := 0 } :=
  (legacy_fallback_contract
    { godef := "godef.orig", args := ["-f", "a.go", "-o", "100"],
      fileBody := "package main", legacy := fun _ _ _ => .ok "b.go:10:6" } none
    (Or.inl rfl) (by decide)).1 "b.go:10:6" rfl

end Gosym
